import Mathlib

/-!
Verification of the heuristic binary scanning and indexing engine of the
GMData repository (`src/GMDR_fixed.py`, `src/PyGGDataLiser_3.py`).

A byte buffer is modelled as `List Nat` (each entry one byte value); Python
strings are modelled as `List Nat` of Unicode code points.  Every definition
below is a direct translation of the corresponding Python function; the Python
function it embeds is named in its doc comment.
-/

namespace GMData

/-- A Python string, modelled as its list of Unicode code points. -/
abbrev PyStr := List Nat

/-- Code points of a Lean string literal, used to write concrete `PyStr` values. -/
def strCodes (s : String) : PyStr := s.toList.map Char.toNat

/-- Element access `data[i]` for an in-bounds index (callers guard bounds). -/
def byteAt (data : List Nat) (i : Nat) : Nat := data.getD i 0

/-- Python slice `data[start:end]` for non-negative indices. -/
def pySlice (data : List Nat) (start stop : Nat) : List Nat :=
  (data.drop start).take (stop - start)

/-- Python `s.startswith(p)` on byte/code-point lists. -/
def py_startswith (s p : List Nat) : Bool := s.take p.length = p

/-- Embeds `is_ascii_upper4` (GMDR_fixed.py line 56): the four bytes are
uppercase ASCII letters. -/
def is_ascii_upper4 (b : List Nat) : Bool :=
  b.length = 4 && b.all (fun x => 65 ≤ x && x ≤ 90)

/-- Embeds `read_u32_le` (GMDR_fixed.py line 59): little-endian u32 at `off`,
`none` when fewer than four bytes remain. -/
def read_u32_le (data : List Nat) (off : Nat) : Option Nat :=
  if off + 4 ≤ data.length then
    some (byteAt data off + byteAt data (off+1) * 256 +
          byteAt data (off+2) * 65536 + byteAt data (off+3) * 16777216)
  else none

/-- A chunk record `(tag, header_offset, declared_size, content_start,
content_end)` as produced by `recursive_find_chunks`.  The tag is kept as its
four raw bytes (the source decodes them as ASCII, which is injective on the
uppercase bytes accepted by `is_ascii_upper4`). -/
structure Chunk where
  tag : List Nat
  off : Nat
  size : Nat
  cs : Nat
  ce : Nat
deriving Repr, DecidableEq

/-- Loop body of `recursive_find_chunks` (GMDR_fixed.py lines 64-80): scan
`[i, n)` inside the call whose span started at `start`; on a valid header emit
the chunk, recurse into its content span, and resume after it; otherwise
advance one byte. -/
def findChunksGo (data : List Nat) (start i n : Nat) : List Chunk :=
  if _h : i < n - 8 then
    if is_ascii_upper4 (pySlice data i (i+4)) then
      match read_u32_le data (i+4) with
      | some size =>
        if _hsz : size > 0 then
          if _hc : start ≤ i + 8 ∧ i + 8 ≤ i + 8 + size ∧ i + 8 + size ≤ n then
            Chunk.mk (pySlice data i (i+4)) i size (i + 8) (i + 8 + size) ::
              (findChunksGo data (i + 8) (i + 8) (i + 8 + size) ++
               findChunksGo data start (i + 8 + size) n)
          else
            findChunksGo data start (i+1) n
        else
          findChunksGo data start (i+1) n
      | none => findChunksGo data start (i+1) n
    else
      findChunksGo data start (i+1) n
  else
    []
termination_by n - i
decreasing_by all_goals omega

/-- Embeds `recursive_find_chunks` (GMDR_fixed.py lines 64-80). -/
def recursive_find_chunks (data : List Nat) (start stop : Nat) : List Chunk :=
  findChunksGo data start start stop

/-- Helper for Python `bytes.find`: scan `seg` left to right, returning the
index (counted from `idx`) of the first position where `pat` is a full prefix
of the remaining bytes. -/
def findSubGo (pat seg : List Nat) (idx : Nat) : Option Nat :=
  if py_startswith seg pat then some idx
  else
    match seg with
    | [] => none
    | _ :: rest => findSubGo pat rest (idx + 1)

/-- Python `seg.find(pat, p)`: index of the first occurrence of `pat` fully
contained in `seg` at an index `≥ p`; `none` stands for Python's `-1`. -/
def findSubFrom (seg pat : List Nat) (p : Nat) : Option Nat :=
  (findSubGo pat (seg.drop p) 0).map (· + p)

/-- Python `seg.find(pat, lo, hi)`: the occurrence must lie fully inside
`[lo, hi)`, which is exactly a search in the truncated buffer `seg[:hi]`. -/
def findSubInRange (seg pat : List Nat) (lo hi : Nat) : Option Nat :=
  findSubFrom (seg.take hi) pat lo

/-- The pattern `pat` occurs (fully) in `seg` at index `q`. -/
def occursAt (seg pat : List Nat) (q : Nat) : Bool :=
  py_startswith (seg.drop q) pat

/-- Byte values of the primary container signature `b"FORM"`. -/
def FORMtag : List Nat := strCodes "FORM"

/-- Byte values of the fallback anchor tag `b"GEN8"`. -/
def GEN8tag : List Nat := strCodes "GEN8"

/-- Fallback branch of `find_top_form` (GMDR_fixed.py lines 89-100): search for
the `GEN8` anchor, then for a `FORM` signature in the 64-byte window before it
(`max(0, gen-64)` is Nat subtraction `gen - 64`), validate its size field, and
otherwise return the whole-buffer bounds with `header_offset = None`. -/
def formFallback (data : List Nat) : Option Nat × Nat × Nat :=
  match findSubFrom data GEN8tag 0 with
  | some gen =>
    match findSubInRange data FORMtag (gen - 64) gen with
    | some form =>
      match read_u32_le data (form + 4) with
      | some size =>
        if size ≠ 0 ∧ form + 8 + size ≤ data.length then
          (some form, form + 8, form + 8 + size)
        else (none, 0, data.length)
      | none => (none, 0, data.length)
    | none => (none, 0, data.length)
  | none => (none, 0, data.length)

/-- Embeds `find_top_form` (GMDR_fixed.py lines 82-100).  The Python test
`if size:` is falsy both for `None` and for `0`, so a present-but-zero size
field skips the primary branch and falls through to the fallback. -/
def find_top_form (data : List Nat) : Option Nat × Nat × Nat :=
  if py_startswith data FORMtag then
    match read_u32_le data 4 with
    | some size =>
      if size ≠ 0 ∧ 8 + size ≤ data.length then (some 0, 8, 8 + size)
      else formFallback data
    | none => formFallback data
  else formFallback data

/-- The primary branch of `find_top_form` succeeds: the buffer starts with the
signature and carries a truthy, in-bounds size field. -/
def primaryLocates (data : List Nat) : Bool :=
  py_startswith data FORMtag &&
    match read_u32_le data 4 with
    | some size => size ≠ 0 && decide (8 + size ≤ data.length)
    | none => false

/-- Continuation byte test of strict UTF-8 decoding. -/
def utf8Cont (b : Nat) : Bool := 0x80 ≤ b && b ≤ 0xBF

/-- Allowed second byte of a three-byte UTF-8 sequence headed by `b` (rejects
overlong encodings and surrogates, as Python's strict decoder does). -/
def utf8Second3 (b b1 : Nat) : Bool :=
  if b = 0xE0 then 0xA0 ≤ b1 && b1 ≤ 0xBF
  else if b = 0xED then 0x80 ≤ b1 && b1 ≤ 0x9F
  else utf8Cont b1

/-- Allowed second byte of a four-byte UTF-8 sequence headed by `b` (rejects
overlongs and code points beyond U+10FFFF). -/
def utf8Second4 (b b1 : Nat) : Bool :=
  if b = 0xF0 then 0x90 ≤ b1 && b1 ≤ 0xBF
  else if b = 0xF4 then 0x80 ≤ b1 && b1 ≤ 0x8F
  else utf8Cont b1

/-- Python `raw.decode("utf-8")` (strict): `none` models the `UnicodeDecodeError`
branch of `extract_strings_from_region`. -/
def decode_utf8 : List Nat → Option (List Nat)
  | [] => some []
  | b :: rest =>
    if b ≤ 0x7F then
      match decode_utf8 rest with
      | some cps => some (b :: cps)
      | none => none
    else if 0xC2 ≤ b && b ≤ 0xDF then
      match rest with
      | b1 :: r1 =>
        if utf8Cont b1 then
          match decode_utf8 r1 with
          | some cps => some (((b - 0xC0) * 0x40 + (b1 - 0x80)) :: cps)
          | none => none
        else none
      | [] => none
    else if 0xE0 ≤ b && b ≤ 0xEF then
      match rest with
      | b1 :: b2 :: r2 =>
        if utf8Second3 b b1 && utf8Cont b2 then
          match decode_utf8 r2 with
          | some cps =>
            some (((b - 0xE0) * 0x1000 + (b1 - 0x80) * 0x40 + (b2 - 0x80)) :: cps)
          | none => none
        else none
      | _ => none
    else if 0xF0 ≤ b && b ≤ 0xF4 then
      match rest with
      | b1 :: b2 :: b3 :: r3 =>
        if utf8Second4 b b1 && utf8Cont b2 && utf8Cont b3 then
          match decode_utf8 r3 with
          | some cps =>
            some (((b - 0xF0) * 0x40000 + (b1 - 0x80) * 0x1000 +
                   (b2 - 0x80) * 0x40 + (b3 - 0x80)) :: cps)
          | none => none
        else none
      | _ => none
    else none

/-- Python `raw.decode("latin-1", errors="ignore")`: every byte value is a valid
Latin-1 code point equal to itself, so this decode never fails and never drops
a byte. -/
def decode_latin1 (raw : List Nat) : PyStr := raw

/-- Decode step of `extract_strings_from_region` (GMDR_fixed.py lines 110-117):
strict UTF-8 first, Latin-1 fallback on failure (the second `except` is
unreachable since the Latin-1 decode cannot fail). -/
def decodeRun (raw : List Nat) : PyStr :=
  match decode_utf8 raw with
  | some s => s
  | none => decode_latin1 raw

/-- Python `ch.isalnum()`.  Modelled exactly on the code points below 0x100
(the only values the Latin-1 fallback can produce): ASCII digits and letters,
the Latin-1 letters (including ª µ º, excluding × ÷) and the numeric characters
² ³ ¹ ¼ ½ ¾.  Code points at or above 0x100, reachable only through a
successful multi-byte UTF-8 decode, are mapped to `false`; no theorem in this
file depends on their classification. -/
def pyIsAlnum (c : Nat) : Bool :=
  (48 ≤ c && c ≤ 57) || (65 ≤ c && c ≤ 90) || (97 ≤ c && c ≤ 122) ||
  c = 0xAA || c = 0xB5 || c = 0xBA ||
  c = 0xB2 || c = 0xB3 || c = 0xB9 ||
  c = 0xBC || c = 0xBD || c = 0xBE ||
  (0xC0 ≤ c && c ≤ 0xFF && !(c = 0xD7) && !(c = 0xF7))

/-- Python `ch.lower()` for one code point.  Exact on the Latin-1 range (ASCII
and the Latin-1 uppercase letters À..Þ except ×); code points at or above 0x100
are returned unchanged (no theorem in this file depends on them). -/
def pyLowerChar (c : Nat) : Nat :=
  if 65 ≤ c ∧ c ≤ 90 then c + 32
  else if 0xC0 ≤ c ∧ c ≤ 0xDE ∧ c ≠ 0xD7 then c + 32
  else c

/-- Python `s.lower()`. -/
def pyLower (s : PyStr) : PyStr := s.map pyLowerChar

/-- Null-terminated byte runs of a segment, in order.  This is the split loop
of `extract_strings_from_region` (GMDR_fixed.py lines 104-120): each iteration
finds the next null at `n` and takes `seg[off:n]`; when no further null exists
the loop breaks, discarding the unterminated tail. -/
def terminatedRuns : List Nat → List (List Nat)
  | [] => []
  | b :: rest =>
    if b = 0 then [] :: terminatedRuns rest
    else
      match terminatedRuns rest with
      | [] => []
      | r :: rs => (b :: r) :: rs

/-- Keep filter of `extract_strings_from_region` (GMDR_fixed.py line 118):
`if s and any(ch.isalnum() for ch in s)` — the decoded run must be non-empty
(Python truthiness) and contain an alphanumeric character. -/
def keepString (s : PyStr) : Bool := !s.isEmpty && s.any pyIsAlnum

/-- Loop of the order-preserving set-backed dedup (GMDR_fixed.py lines 122-126). -/
def dedupKeepOrderGo (seen : List PyStr) : List PyStr → List PyStr
  | [] => []
  | x :: rest =>
    if x ∈ seen then dedupKeepOrderGo seen rest
    else x :: dedupKeepOrderGo (x :: seen) rest

/-- Order-preserving dedup over an ordered append (GMDR_fixed.py lines 121-127). -/
def dedupKeepOrder (xs : List PyStr) : List PyStr := dedupKeepOrderGo [] xs

/-- Embeds `extract_strings_from_region` (GMDR_fixed.py lines 102-127). -/
def extract_strings_from_region (data : List Nat) (start stop : Nat) : List PyStr :=
  dedupKeepOrder
    (((terminatedRuns (pySlice data start stop)).map decodeRun).filter keepString)

/-- The PNG magic signature `b"\x89PNG\r\n\x1a\n"`. -/
def pngSig : List Nat := [0x89, 0x50, 0x4E, 0x47, 0x0D, 0x0A, 0x1A, 0x0A]

/-- The PNG end-marker tag `b"IEND"`. -/
def IENDtag : List Nat := strCodes "IEND"

theorem findSubGo_some_ge {pat seg : List Nat} {idx r : Nat}
    (h : findSubGo pat seg idx = some r) : idx ≤ r := by
  induction seg generalizing idx with
  | nil =>
    unfold findSubGo at h
    split at h
    · exact (Option.some_inj.mp h) ▸ le_refl idx
    · exact absurd h (by simp)
  | cons b rest ih =>
    unfold findSubGo at h
    split at h
    · exact (Option.some_inj.mp h) ▸ le_refl idx
    · exact le_trans (Nat.le_succ idx) (ih h)

theorem findSubGo_some_occurs {pat seg : List Nat} {idx r : Nat}
    (h : findSubGo pat seg idx = some r) :
    py_startswith (seg.drop (r - idx)) pat = true := by
  induction seg generalizing idx with
  | nil =>
    unfold findSubGo at h
    split at h
    · obtain rfl := Option.some_inj.mp h
      simp only [Nat.sub_self, List.drop_nil]
      assumption
    · exact absurd h (by simp)
  | cons b rest ih =>
    unfold findSubGo at h
    split at h
    · obtain rfl := Option.some_inj.mp h
      simp only [Nat.sub_self, List.drop_zero]
      assumption
    · have hge := findSubGo_some_ge h
      have := ih h
      have hdrop : (b :: rest).drop (r - idx) = rest.drop (r - (idx + 1)) := by
        have : r - idx = (r - (idx + 1)) + 1 := by omega
        simp [this]
      rw [hdrop]
      exact this

/-- A successful `findSubFrom` points at an occurrence at or after the start
index. -/
theorem findSubFrom_some {seg pat : List Nat} {p r : Nat}
    (h : findSubFrom seg pat p = some r) :
    p ≤ r ∧ occursAt seg pat r = true := by
  unfold findSubFrom at h
  match hg : findSubGo pat (seg.drop p) 0 with
  | none => rw [hg] at h; exact absurd h (by simp)
  | some j =>
    rw [hg, Option.map_some'] at h
    obtain rfl := Option.some_inj.mp h
    refine ⟨Nat.le_add_left p j, ?_⟩
    have := findSubGo_some_occurs hg
    simpa [occursAt, Nat.add_comm j p, List.drop_drop] using this

/-- An occurrence of a non-empty pattern lies strictly inside the segment. -/
theorem occursAt_lt_length {seg pat : List Nat} {q : Nat} (hpat : pat ≠ [])
    (h : occursAt seg pat q = true) : q < seg.length ∧ q + pat.length ≤ seg.length := by
  unfold occursAt py_startswith at h
  have hlen : ((seg.drop q).take pat.length).length = pat.length := by
    rw [of_decide_eq_true h]
  simp only [List.length_take, List.length_drop] at hlen
  have hplen : 0 < pat.length := List.length_pos.mpr hpat
  omega

/-- Scan loop of `find_pngs_offsets` (GMDR_fixed.py lines 134-147): find the
next signature from `i`, then the next end marker from that signature; if either
search fails, stop entirely; otherwise emit the range (clamped to the span end)
and resume after the consumed end marker. -/
def findPngsGo (start stop : Nat) (seg : List Nat) (i : Nat) : List (Nat × Nat) :=
  match hp : findSubFrom seg pngSig i with
  | none => []
  | some p =>
    match he : findSubFrom seg IENDtag p with
    | none => []
    | some iend =>
      (start + p, if start + iend + 8 > stop then stop else start + iend + 8) ::
        findPngsGo start stop seg (iend + 8)
termination_by seg.length + 8 - i
decreasing_by
  have h1 := findSubFrom_some hp
  have h2 := findSubFrom_some he
  have h3 := occursAt_lt_length (by simp [pngSig]) h1.2
  omega

/-- Embeds `find_pngs_offsets` (GMDR_fixed.py lines 129-147). -/
def find_pngs_offsets (data : List Nat) (start stop : Nat) : List (Nat × Nat) :=
  findPngsGo start stop (pySlice data start stop) 0

/-- Encode one code point as strict UTF-8 bytes; surrogates and values beyond
U+10FFFF cannot be encoded (Python raises, modelled as `none`). -/
def encode_utf8_char (c : Nat) : Option (List Nat) :=
  if c ≤ 0x7F then some [c]
  else if c ≤ 0x7FF then some [0xC0 + c / 0x40, 0x80 + c % 0x40]
  else if 0xD800 ≤ c ∧ c ≤ 0xDFFF then none
  else if c ≤ 0xFFFF then
    some [0xE0 + c / 0x1000, 0x80 + c / 0x40 % 0x40, 0x80 + c % 0x40]
  else if c ≤ 0x10FFFF then
    some [0xF0 + c / 0x40000, 0x80 + c / 0x1000 % 0x40,
          0x80 + c / 0x40 % 0x40, 0x80 + c % 0x40]
  else none

/-- Python `s.encode("utf-8")`. -/
def encode_utf8 : PyStr → Option (List Nat)
  | [] => some []
  | c :: rest =>
    match encode_utf8_char c, encode_utf8 rest with
    | some bs, some tl => some (bs ++ tl)
    | _, _ => none

/-- Name-guess loop of `ParserWorker.run` (GMDR_fixed.py lines 385-392): walk
the harvested string list in order; for each string find the first occurrence
of its UTF-8 bytes in the whole buffer; accept the first string whose
occurrence is within 4096 bytes of the candidate offset `p0` and stop there.
An exception (encode failure) skips just that string (`except: pass`). -/
def guessName (data : List Nat) (strings : List PyStr) (p0 : Nat) : Option PyStr :=
  match strings with
  | [] => none
  | s :: rest =>
    match encode_utf8 s with
    | some enc =>
      match findSubFrom data enc 0 with
      | some loc =>
        if max loc p0 - min loc p0 < 4096 then some s else guessName data rest p0
      | none => guessName data rest p0
    | none => guessName data rest p0

/-- Decimal digits of `n` as code points, as in a Python f-string. -/
def natToDigits (n : Nat) : PyStr := (Nat.toDigits 10 n).map Char.toNat

/-- The synthesized positional placeholder `f"spr_frame_{p0}"`
(GMDR_fixed.py line 393). -/
def sprFramePlaceholder (p0 : Nat) : PyStr := strCodes "spr_frame_" ++ natToDigits p0

/-- Python `name_guess or f"spr_frame_{p0}"` (GMDR_fixed.py line 393): a `None`
or empty (falsy) guess falls back to the placeholder. -/
def frameDisplayName (data : List Nat) (strings : List PyStr) (p0 : Nat) : PyStr :=
  match guessName data strings p0 with
  | some s => if s = [] then sprFramePlaceholder p0 else s
  | none => sprFramePlaceholder p0

/-- A sprite-frame record `{"name": .., "pos": .., "end": ..}` of
`ParserWorker.run` (the lazily decoded pixmap field is materialization state,
not index data). -/
structure Frame where
  name : PyStr
  pos : Nat
  stop : Nat
deriving Repr, DecidableEq

/-- Sprite-frame construction loop of `ParserWorker.run`
(GMDR_fixed.py lines 384-394). -/
def mkSpriteFrames (data : List Nat) (strings : List PyStr)
    (pngs : List (Nat × Nat)) : List Frame :=
  pngs.map (fun r => Frame.mk (frameDisplayName data strings r.1) r.1 r.2)

/-- Python `s.split(pat)[0]`: the part of `s` before the first occurrence of
`pat` (the whole of `s` when `pat` does not occur). -/
def strSplitFirst (s pat : PyStr) : PyStr :=
  match findSubFrom s pat 0 with
  | some p => s.take p
  | none => s

/-- Python `groups.setdefault(root, []).append(idx)` over an insertion-ordered
dict modelled as an association list. -/
def groupsInsert (groups : List (PyStr × List Nat)) (key : PyStr) (idx : Nat) :
    List (PyStr × List Nat) :=
  match groups with
  | [] => [(key, [idx])]
  | g :: rest =>
    if g.1 = key then (g.1, g.2 ++ [idx]) :: rest
    else g :: groupsInsert rest key idx

/-- Sprite grouping loop of `ParserWorker.run` (GMDR_fixed.py lines 426-433):
each frame whose lowercased name starts with `"spr_"` is appended, by index, to
the group keyed by the name part before the first `"_frame"`. -/
def sprite_groups_of (frames : List Frame) : List (PyStr × List Nat) :=
  frames.enum.foldl
    (fun groups fr =>
      let nm := pyLower fr.2.name
      if py_startswith nm (strCodes "spr_") then
        groupsInsert groups (strSplitFirst nm (strCodes "_frame")) fr.1
      else groups)
    []

/-- Orphan-frame computation of `MainWindow.populate_tree`
(GMDR_fixed.py lines 687-688): indices of frames whose lowercased name does not
start with `"spr_"`; these stay individually listed under "Other Frames". -/
def orphans_of (frames : List Frame) : List Nat :=
  (frames.enum.filter
    (fun fr => !py_startswith (pyLower fr.2.name) (strCodes "spr_"))).map (·.1)

/-- A sound record `{"name","pos","end","type"}` of `ParserWorker.run`. -/
structure Sound where
  name : PyStr
  pos : Nat
  stop : Nat
  type : PyStr
deriving Repr, DecidableEq

/-- The caller-visible index categories: the fields of `ParseResult.__init__`
(GMDR_fixed.py lines 293-306), which coincide with the category fields of
`MainWindow` (lines 450-460). -/
structure ParseResult where
  raw : List Nat
  form_bounds : Option Nat × Nat × Nat
  chunks : List Chunk
  strings : List PyStr
  sounds : List Sound
  sprite_frames : List Frame
  sprite_groups : List (PyStr × List Nat)
  scripts : List PyStr
  rooms : List PyStr
  objects : List PyStr
  fonts : List PyStr
deriving Repr, DecidableEq

/-- A freshly constructed `ParseResult()` (GMDR_fixed.py lines 294-306). -/
def ParseResult.empty : ParseResult :=
  ⟨[], (none, 0, 0), [], [], [], [], [], [], [], [], []⟩

/-- Embeds the except-branch of `ParserWorker.run` (GMDR_fixed.py lines
437-438): on any exception, a fresh empty `ParseResult` and the message
`f"{type(e).__name__}: {e}"` are emitted to the `done` signal. -/
def workerFailEmit (typeName msg : PyStr) : ParseResult × PyStr :=
  (ParseResult.empty, typeName ++ strCodes ": " ++ msg)

/-- Embeds `MainWindow.on_parsed` (GMDR_fixed.py lines 611-629) restricted to
the index categories: a non-empty error string returns before any category is
touched; otherwise every category field is adopted from the result. -/
def on_parsed (st : ParseResult) (pr : ParseResult) (err : PyStr) : ParseResult :=
  if err = [] then pr else st

/-- Per-key chunk dedup loop (GMDR_fixed.py lines 334-338 /
PyGGDataLiser_3.py lines 427-433): first discovery of a `(tag, header_offset)`
key wins. -/
def dedupChunksGo (seen : List (List Nat × Nat)) : List Chunk → List Chunk
  | [] => []
  | c :: rest =>
    if (c.tag, c.off) ∈ seen then dedupChunksGo seen rest
    else c :: dedupChunksGo ((c.tag, c.off) :: seen) rest

/-- Deduplicated chunk list keyed by `(tag, header_offset)`. -/
def dedupChunks (cs : List Chunk) : List Chunk := dedupChunksGo [] cs

/-- The caller-visible category fields of `GMViewerApp`
(PyGGDataLiser_3.py lines 370-380); `raw` and `form_bounds` start as `None`. -/
structure TkState where
  raw : Option (List Nat)
  form_bounds : Option (Option Nat × Nat × Nat)
  chunks : List Chunk
  strings : List PyStr
  images : List Frame
  sounds : List Sound
  scripts : List PyStr
  rooms : List PyStr
  objects : List PyStr
deriving Repr, DecidableEq

/-- Embeds `GMViewerApp._parse_file_thread` (PyGGDataLiser_3.py lines 403-434):
the read phase, the caller-visible assignments `self.raw = data` and
`self.form_bounds = find_top_form(data)`, the chunk scan and the dedup
assignment `self.chunks = dedup`.  `readResult` is the outcome of
`open(path).read()`; a read failure shows an error box and leaves every field
untouched.  `scanExc` models an exception escaping `recursive_find_chunks`
(for example Python's `RecursionError` on a deeply nested chunk chain): this
function wraps no handler around the scan, so when `scanExc = some e` the
daemon thread dies after the two assignments and no message reaches the caller
(second component `none`).  The phases after line 434 mutate further category
fields in the same direct style. -/
def parse_file_thread_403_434 (st : TkState) (readResult : Except PyStr (List Nat))
    (scanExc : Option PyStr) : TkState × Option PyStr :=
  match readResult with
  | .error e => (st, some (strCodes "Failed to read file: " ++ e))
  | .ok data =>
    let fb := find_top_form data
    let st1 := { st with raw := some data, form_bounds := some fb }
    match scanExc with
    | some _ => (st1, none)
    | none =>
      let chunks0 := recursive_find_chunks data fb.2.1 fb.2.2
      let chunks1 :=
        match fb.1 with
        | some formpos =>
          Chunk.mk FORMtag formpos (fb.2.2 - fb.2.1) fb.2.1 fb.2.2 :: chunks0
        | none => chunks0
      ({ st1 with chunks := dedupChunks chunks1 }, none)

/-- A concrete buffer holding one chunk `"ABCD"` of declared size 2. -/
def chunkWitnessBuf : List Nat := strCodes "ABCD" ++ [2, 0, 0, 0] ++ [0, 0]

/-- A buffer whose leading `"AAAA"` header declares an overrunning size 255,
followed by a valid chunk `"BBBB"` of size 1. -/
def overrunBuf : List Nat :=
  strCodes "AAAA" ++ [255, 0, 0, 0] ++ strCodes "BBBB" ++ [1, 0, 0, 0] ++ [7]

/-- A concrete buffer: one complete PNG (signature, end marker, checksum) then
a second signature with no end marker anywhere after it. -/
def pngAbortBuf : List Nat :=
  pngSig ++ IENDtag ++ [1, 2, 3, 4] ++ pngSig ++ [5, 6, 7]

/-- Acceptance rule of the name associator, stated from the spec's words: the
string's UTF-8 bytes occur somewhere in the buffer and the first occurrence's
distance to the candidate offset is within the fixed 4096-byte threshold.
`guessName`, the translation of the source loop, is proved below to be
`List.find?` of this predicate. -/
def nameAcceptable (data : List Nat) (p0 : Nat) (s : PyStr) : Bool :=
  match encode_utf8 s with
  | some enc =>
    match findSubFrom data enc 0 with
    | some loc => max loc p0 - min loc p0 < 4096
    | none => false
  | none => false

/-- A concrete buffer whose bytes contain `"AB"` at offset 0 (distance 100 from
the candidate offset) and `"CD"` at offset 99 (distance 1). -/
def nameBuf : List Nat := strCodes "AB" ++ List.replicate 97 1 ++ strCodes "CD"

/-- Three frames whose guessed names are `"spr_walk_0"`, `"spr_walk_1"` and
`"background_1"`, as in the spec's grouping scenario. -/
def walkFrames : List Frame :=
  [Frame.mk (strCodes "spr_walk_0") 100 110,
   Frame.mk (strCodes "spr_walk_1") 200 210,
   Frame.mk (strCodes "background_1") 300 310]

/-- A buffer that does not start with the signature but holds `FORM` (valid
size 4) one byte in, followed by the `GEN8` anchor. -/
def anchorBuf : List Nat := strCodes "X" ++ strCodes "FORM" ++ [4, 0, 0, 0] ++ strCodes "GEN8"

/-! Section: Scan invariants of the chunk scanner -/

/-- Every chunk emitted while scanning `[i, n)` has its header at or after `i`,
satisfies the header/content arithmetic, and its content ends inside `[i, n)`. -/
theorem findChunksGo_mem (data : List Nat) (start i n : Nat) :
    ∀ c ∈ findChunksGo data start i n,
      i ≤ c.off ∧ c.cs = c.off + 8 ∧ c.ce = c.cs + c.size ∧ 0 < c.size ∧ c.ce ≤ n := by
  induction start, i, n using findChunksGo.induct data with
  | case1 start i n h1 h2 size h3 h4 h5 ih1 ih2 =>
    intro c hc
    rw [findChunksGo.eq_def] at hc
    simp only [dif_pos h1, if_pos h2, h3, dif_pos h4, dif_pos h5] at hc
    rcases List.mem_cons.mp hc with rfl | hc
    · exact ⟨Nat.le_refl _, rfl, rfl, h4, h5.2.2⟩
    · rcases List.mem_append.mp hc with hc | hc
      · have := ih1 c hc
        exact ⟨by omega, this.2.1, this.2.2.1, this.2.2.2.1, by
          have := this.2.2.2.2; omega⟩
      · have := ih2 c hc
        exact ⟨by omega, this.2.1, this.2.2.1, this.2.2.2.1, this.2.2.2.2⟩
  | case2 start i n h1 h2 size h3 h4 h5 ih =>
    intro c hc
    rw [findChunksGo.eq_def] at hc
    simp only [dif_pos h1, if_pos h2, h3, dif_pos h4, dif_neg h5] at hc
    have := ih c hc
    exact ⟨by omega, this.2⟩
  | case3 start i n h1 h2 size h3 h4 ih =>
    intro c hc
    rw [findChunksGo.eq_def] at hc
    simp only [dif_pos h1, if_pos h2, h3, dif_neg h4] at hc
    have := ih c hc
    exact ⟨by omega, this.2⟩
  | case4 start i n h1 h2 h3 ih =>
    intro c hc
    rw [findChunksGo.eq_def] at hc
    simp only [dif_pos h1, if_pos h2, h3] at hc
    have := ih c hc
    exact ⟨by omega, this.2⟩
  | case5 start i n h1 h2 ih =>
    intro c hc
    rw [findChunksGo.eq_def] at hc
    simp only [dif_pos h1, if_neg h2] at hc
    have := ih c hc
    exact ⟨by omega, this.2⟩
  | case6 start i n h1 =>
    intro c hc
    rw [findChunksGo.eq_def] at hc
    simp only [dif_neg h1] at hc
    exact absurd hc (List.not_mem_nil c)

/-- C5.  Containment invariant: every Chunk emitted by the chunk scanner
(including chunks emitted by its recursive calls) satisfies
`start ≤ header_offset`, `content_start = header_offset + 8`,
`content_end = content_start + declared_size`, `declared_size > 0` and
`content_end ≤ stop`. -/
theorem chunk_scanner_containment (data : List Nat) (start stop : Nat)
    (c : Chunk) (hc : c ∈ recursive_find_chunks data start stop) :
    start ≤ c.off ∧ c.cs = c.off + 8 ∧ c.ce = c.cs + c.size ∧
      0 < c.size ∧ c.ce ≤ stop :=
  findChunksGo_mem data start start stop c hc


/-- Witness for C5 at a concrete buffer: the chunk `("ABCD", 0, 2, 8, 10)` is
emitted and satisfies the invariant. -/
theorem chunk_scanner_containment_witness :
    Chunk.mk (strCodes "ABCD") 0 2 8 10 ∈ recursive_find_chunks chunkWitnessBuf 0 10 ∧
      (0 ≤ (Chunk.mk (strCodes "ABCD") 0 2 8 10).off ∧
       (Chunk.mk (strCodes "ABCD") 0 2 8 10).cs = (Chunk.mk (strCodes "ABCD") 0 2 8 10).off + 8 ∧
       (Chunk.mk (strCodes "ABCD") 0 2 8 10).ce =
         (Chunk.mk (strCodes "ABCD") 0 2 8 10).cs + (Chunk.mk (strCodes "ABCD") 0 2 8 10).size ∧
       0 < (Chunk.mk (strCodes "ABCD") 0 2 8 10).size ∧
       (Chunk.mk (strCodes "ABCD") 0 2 8 10).ce ≤ 10) := by
  have hmem : Chunk.mk (strCodes "ABCD") 0 2 8 10 ∈
      recursive_find_chunks chunkWitnessBuf 0 10 := by
    simp [recursive_find_chunks, findChunksGo, chunkWitnessBuf, pySlice,
      is_ascii_upper4, read_u32_le, byteAt, strCodes]
  exact ⟨hmem, chunk_scanner_containment chunkWitnessBuf 0 10 _ hmem⟩

/-- C6.  Overrun rejection: a position `i` holding a valid uppercase tag whose
declared size would make the content span exceed the span end `n` yields no
emitted Chunk at that position, raises no error (the scanner is a total
function), and scanning continues exactly as if restarted one byte further, so
any later valid chunk is still emitted. -/
theorem chunk_scanner_overrun_rejected (data : List Nat) (start i n size : Nat)
    (hguard : i < n - 8)
    (htag : is_ascii_upper4 (pySlice data i (i+4)) = true)
    (hsize : read_u32_le data (i+4) = some size)
    (hpos : 0 < size)
    (hover : n < i + 8 + size) :
    findChunksGo data start i n = findChunksGo data start (i+1) n ∧
      ∀ c ∈ findChunksGo data start i n, c.off ≠ i := by
  have heq : findChunksGo data start i n = findChunksGo data start (i+1) n := by
    rw [findChunksGo.eq_def]
    simp only [dif_pos hguard, if_pos htag, hsize, dif_pos hpos]
    rw [dif_neg (by omega)]
  refine ⟨heq, ?_⟩
  intro c hc
  rw [heq] at hc
  have := findChunksGo_mem data start (i+1) n c hc
  omega


/-- Witness for C6 at a concrete buffer: the overrunning header at position 0
is rejected, scanning continues, and the later `"BBBB"` chunk is emitted. -/
theorem chunk_scanner_overrun_rejected_witness :
    (findChunksGo overrunBuf 0 0 17 = findChunksGo overrunBuf 0 1 17 ∧
      ∀ c ∈ findChunksGo overrunBuf 0 0 17, c.off ≠ 0) ∧
    Chunk.mk (strCodes "BBBB") 8 1 16 17 ∈ findChunksGo overrunBuf 0 0 17 := by
  refine ⟨chunk_scanner_overrun_rejected overrunBuf 0 0 17 255 (by decide)
    (by decide) (by decide) (by decide) (by decide), ?_⟩
  simp [findChunksGo, overrunBuf, pySlice, is_ascii_upper4, read_u32_le,
    byteAt, strCodes]

/-! Section: Properties of the string harvester -/

theorem dedupKeepOrderGo_mem {x : PyStr} :
    ∀ (xs : List PyStr) (seen : List PyStr), x ∈ dedupKeepOrderGo seen xs → x ∈ xs := by
  intro xs
  induction xs with
  | nil => intro seen h; exact absurd h (by simp [dedupKeepOrderGo])
  | cons y rest ih =>
    intro seen h
    unfold dedupKeepOrderGo at h
    split at h
    · exact List.mem_cons_of_mem y (ih seen h)
    · rcases List.mem_cons.mp h with rfl | h
      · exact List.mem_cons_self x rest
      · exact List.mem_cons_of_mem y (ih (y :: seen) h)

theorem dedupKeepOrderGo_nodup :
    ∀ (xs : List PyStr) (seen : List PyStr),
      (dedupKeepOrderGo seen xs).Nodup ∧ ∀ x ∈ dedupKeepOrderGo seen xs, x ∉ seen := by
  intro xs
  induction xs with
  | nil => intro seen; simp [dedupKeepOrderGo]
  | cons y rest ih =>
    intro seen
    unfold dedupKeepOrderGo
    split
    · exact ih seen
    · refine ⟨List.nodup_cons.mpr ⟨fun hmem => ?_, (ih (y :: seen)).1⟩, ?_⟩
      · exact absurd (List.mem_cons_self y seen) ((ih (y :: seen)).2 y hmem)
      · intro x hx
        rcases List.mem_cons.mp hx with rfl | hx
        · assumption
        · intro hxs
          exact (ih (y :: seen)).2 x hx (List.mem_cons_of_mem y hxs)

theorem dedupKeepOrderGo_sublist :
    ∀ (xs : List PyStr) (seen : List PyStr), (dedupKeepOrderGo seen xs).Sublist xs := by
  intro xs
  induction xs with
  | nil => intro seen; simp [dedupKeepOrderGo]
  | cons y rest ih =>
    intro seen
    unfold dedupKeepOrderGo
    split
    · exact (ih seen).trans (List.sublist_cons_self y rest)
    · exact (ih (y :: seen)).cons₂ y

/-- C7.  The string harvester returns no duplicate entries, keeps first-seen
order (its output is a sublist of the ordered pre-dedup list), and every
returned entry contains at least one alphanumeric character. -/
theorem string_harvester_unique_alnum (data : List Nat) (start stop : Nat) :
    (extract_strings_from_region data start stop).Nodup ∧
    (∀ s ∈ extract_strings_from_region data start stop, s.any pyIsAlnum = true) ∧
    (extract_strings_from_region data start stop).Sublist
      (((terminatedRuns (pySlice data start stop)).map decodeRun).filter keepString) := by
  refine ⟨(dedupKeepOrderGo_nodup _ []).1, ?_, dedupKeepOrderGo_sublist _ []⟩
  intro s hs
  have hmem : s ∈ ((terminatedRuns (pySlice data start stop)).map decodeRun).filter
      keepString := dedupKeepOrderGo_mem _ [] hs
  have hkeep : keepString s = true := (List.mem_filter.mp hmem).2
  unfold keepString at hkeep
  exact (Bool.and_eq_true _ _ ▸ hkeep).2

theorem terminatedRuns_eq_nil (t : List Nat) (ht : ∀ b ∈ t, b ≠ 0) :
    terminatedRuns t = [] := by
  induction t with
  | nil => rfl
  | cons b rest ih =>
    unfold terminatedRuns
    rw [if_neg (ht b (List.mem_cons_self b rest))]
    rw [ih (fun x hx => ht x (List.mem_cons_of_mem b hx))]

theorem terminatedRuns_append (seg t : List Nat) (ht : ∀ b ∈ t, b ≠ 0) :
    terminatedRuns (seg ++ t) = terminatedRuns seg := by
  induction seg with
  | nil => simpa using terminatedRuns_eq_nil t ht
  | cons b rest ih =>
    show terminatedRuns (b :: (rest ++ t)) = terminatedRuns (b :: rest)
    unfold terminatedRuns
    rw [ih]

/-- C10.  Only null-terminated runs are harvested: appending null-free bytes
after the last null of a span never changes the harvester's output (so those
bytes contribute no entry), and a span containing no null byte at all yields
the empty list. -/
theorem harvester_ignores_tail_after_last_null (seg t u : List Nat)
    (ht : ∀ b ∈ t, b ≠ 0) (hu : ∀ b ∈ u, b ≠ 0) :
    extract_strings_from_region (seg ++ t) 0 (seg.length + t.length) =
      extract_strings_from_region seg 0 seg.length ∧
    extract_strings_from_region u 0 u.length = [] := by
  constructor
  · unfold extract_strings_from_region
    have h1 : pySlice (seg ++ t) 0 (seg.length + t.length) = seg ++ t := by
      simp [pySlice]
    have h2 : pySlice seg 0 seg.length = seg := by simp [pySlice]
    rw [h1, h2, terminatedRuns_append seg t ht]
  · unfold extract_strings_from_region
    have h3 : pySlice u 0 u.length = u := by simp [pySlice]
    rw [h3, terminatedRuns_eq_nil u hu]
    rfl

/-- Witness for C10 at concrete inputs: the span `"hi\x00"` with the null-free
tail `"AB"` appended harvests the same single string, and the all-alphanumeric
null-free span `"hello"` harvests nothing. -/
theorem harvester_ignores_tail_after_last_null_witness :
    (∀ b ∈ strCodes "AB", b ≠ 0) ∧ (∀ b ∈ strCodes "hello", b ≠ 0) ∧
    (extract_strings_from_region ([104, 105, 0] ++ strCodes "AB")
        0 ([104, 105, 0].length + (strCodes "AB").length) =
      extract_strings_from_region [104, 105, 0] 0 [104, 105, 0].length ∧
    extract_strings_from_region (strCodes "hello") 0 (strCodes "hello").length = []) :=
  ⟨by decide, by decide,
    harvester_ignores_tail_after_last_null [104, 105, 0] (strCodes "AB")
      (strCodes "hello") (by decide) (by decide)⟩

/-! Section: Properties of the image-range finder -/

theorem findSubGo_none {pat seg : List Nat} {idx : Nat}
    (h : findSubGo pat seg idx = none) :
    ∀ j, py_startswith (seg.drop j) pat = false := by
  induction seg generalizing idx with
  | nil =>
    unfold findSubGo at h
    split at h
    · exact absurd h (by simp)
    · intro j
      rw [List.drop_nil]
      simpa using ‹¬py_startswith [] pat = true›
  | cons b rest ih =>
    unfold findSubGo at h
    split at h
    · exact absurd h (by simp)
    · intro j
      match j with
      | 0 =>
        rw [List.drop_zero]
        simpa using ‹¬py_startswith (b :: rest) pat = true›
      | k + 1 =>
        rw [List.drop_succ_cons]
        exact ih h k

/-- A failed `findSubFrom` means the pattern occurs nowhere at or after the
start index. -/
theorem findSubFrom_none {seg pat : List Nat} {p : Nat}
    (h : findSubFrom seg pat p = none) :
    ∀ q, p ≤ q → occursAt seg pat q = false := by
  unfold findSubFrom at h
  intro q hq
  match hg : findSubGo pat (seg.drop p) 0 with
  | some j => rw [hg] at h; exact absurd h (by simp)
  | none =>
    have h2 := findSubGo_none hg (q - p)
    unfold occursAt
    rw [List.drop_drop] at h2
    rwa [Nat.add_sub_cancel' hq] at h2

/-- Every range emitted by the PNG scan loop is of the canonical clamped form
determined by a signature occurrence and the first end marker at or after it. -/
theorem findPngsGo_mem (start stop : Nat) (seg : List Nat) :
    ∀ i, ∀ r ∈ findPngsGo start stop seg i, ∃ p iend,
      occursAt seg pngSig p = true ∧
      findSubFrom seg IENDtag p = some iend ∧
      r = (start + p, if start + iend + 8 > stop then stop else start + iend + 8) := by
  intro i
  induction i using findPngsGo.induct start stop seg with
  | case1 i hp =>
    intro r hr
    rw [findPngsGo.eq_def] at hr
    split at hr
    · exact absurd hr (List.not_mem_nil r)
    · rename_i p1 heq
      rw [hp] at heq
      exact absurd heq (by simp)
  | case2 i p hp he =>
    intro r hr
    rw [findPngsGo.eq_def] at hr
    split at hr
    · exact absurd hr (List.not_mem_nil r)
    · rename_i p1 heq
      have hpp : p = p1 := by rw [hp] at heq; exact Option.some_inj.mp heq
      subst hpp
      split at hr
      · exact absurd hr (List.not_mem_nil r)
      · rename_i iend1 heq2
        rw [he] at heq2
        exact absurd heq2 (by simp)
  | case3 i p hp iend he ih =>
    intro r hr
    rw [findPngsGo.eq_def] at hr
    split at hr
    · exact absurd hr (List.not_mem_nil r)
    · rename_i p1 heq
      have hpp : p = p1 := by rw [hp] at heq; exact Option.some_inj.mp heq
      subst hpp
      split at hr
      · exact absurd hr (List.not_mem_nil r)
      · rename_i iend1 heq2
        have hii : iend = iend1 := by rw [he] at heq2; exact Option.some_inj.mp heq2
        subst hii
        rcases List.mem_cons.mp hr with rfl | hr
        · exact ⟨p, iend, (findSubFrom_some hp).2, he, rfl⟩
        · exact ih r hr

/-- C8.  Unterminated image aborts the scan: when a PNG signature occurs at
`p0` in the span and no end marker occurs at or after `p0` within the span,
the finder emits no range at or after that signature (only ranges found before
it), and every emitted range is `[sig_start, end_marker_start + 8)` for the
first end marker at or after its signature, clamped to the span end. -/
theorem png_unterminated_aborts (data : List Nat) (start stop p0 : Nat)
    (hsig : occursAt (pySlice data start stop) pngSig p0 = true)
    (hnoend : ∀ q < (pySlice data start stop).length, p0 ≤ q →
      occursAt (pySlice data start stop) IENDtag q = false) :
    (∀ r ∈ find_pngs_offsets data start stop, r.1 < start + p0) ∧
    (∀ r ∈ find_pngs_offsets data start stop, ∃ p iend,
      occursAt (pySlice data start stop) pngSig p = true ∧
      findSubFrom (pySlice data start stop) IENDtag p = some iend ∧
      r = (start + p, if start + iend + 8 > stop then stop else start + iend + 8)) := by
  have hform := findPngsGo_mem start stop (pySlice data start stop) 0
  refine ⟨?_, fun r hr => hform r hr⟩
  intro r hr
  obtain ⟨p, iend, hocc, hfind, rfl⟩ := hform r hr
  have h1 := findSubFrom_some hfind
  have h2 := occursAt_lt_length (by decide : IENDtag ≠ []) h1.2
  by_contra hge
  have hp0p : p0 ≤ p := by simp only [not_lt] at hge; omega
  exact absurd h1.2
    (by simp [hnoend iend h2.1 (le_trans hp0p h1.1)])


/-- Witness for C8 at a concrete buffer: the second signature at offset 16 has
no end marker after it, and the finder's only range precedes it. -/
theorem png_unterminated_aborts_witness :
    (occursAt (pySlice pngAbortBuf 0 27) pngSig 16 = true ∧
     (∀ q < (pySlice pngAbortBuf 0 27).length, 16 ≤ q →
       occursAt (pySlice pngAbortBuf 0 27) IENDtag q = false)) ∧
    (∀ r ∈ find_pngs_offsets pngAbortBuf 0 27, r.1 < 0 + 16) := by
  have h := png_unterminated_aborts pngAbortBuf 0 27 16 (by decide) (by decide)
  exact ⟨⟨by decide, by decide⟩, h.1⟩

/-! Section: Name association -/

theorem sprFramePlaceholder_ne_nil (p0 : Nat) : sprFramePlaceholder p0 ≠ [] := by
  unfold sprFramePlaceholder
  intro h
  have h2 := List.append_eq_nil.mp h
  exact absurd h2.1 (by decide)

/-- C9.  Name association is first-in-list within threshold: the guessed name
is the first string in harvested-list order accepted by `nameAcceptable` (not
the closest one); when no string is accepted the guess is `none` and the
display name is the synthesized positional placeholder, so every frame's name
is non-empty. -/
theorem name_association_first_in_list (data : List Nat) (strings : List PyStr)
    (p0 : Nat) :
    guessName data strings p0 = strings.find? (nameAcceptable data p0) ∧
    (guessName data strings p0 = none →
      frameDisplayName data strings p0 = sprFramePlaceholder p0) ∧
    frameDisplayName data strings p0 ≠ [] := by
  refine ⟨?_, ?_, ?_⟩
  · induction strings with
    | nil => rfl
    | cons s rest ih =>
      rw [List.find?_cons]
      cases henc : encode_utf8 s with
      | none => simp [guessName, nameAcceptable, henc, ih]
      | some enc =>
        cases hloc : findSubFrom data enc 0 with
        | none => simp [guessName, nameAcceptable, henc, hloc, ih]
        | some loc =>
          by_cases hd : max loc p0 - min loc p0 < 4096
          · simp [guessName, nameAcceptable, henc, hloc, hd]
          · simp [guessName, nameAcceptable, henc, hloc, hd, ih]
  · intro hnone
    simp only [frameDisplayName, hnone]
  · cases hg : guessName data strings p0 with
    | none => simp [frameDisplayName, hg, sprFramePlaceholder_ne_nil p0]
    | some s =>
      by_cases hs : s = []
      · simp [frameDisplayName, hg, hs, sprFramePlaceholder_ne_nil p0]
      · simp [frameDisplayName, hg, hs]


/-- Witness for C9 at a concrete input, also exhibiting the first-in-list (not
closest-in-distance) behavior: both strings are acceptable for offset 100 and
`"CD"` is strictly closer, yet `"AB"`, first in list order, is chosen. -/
theorem name_association_first_in_list_witness :
    (guessName nameBuf [strCodes "AB", strCodes "CD"] 100 =
      [strCodes "AB", strCodes "CD"].find? (nameAcceptable nameBuf 100) ∧
     (guessName nameBuf [strCodes "AB", strCodes "CD"] 100 = none →
       frameDisplayName nameBuf [strCodes "AB", strCodes "CD"] 100 =
         sprFramePlaceholder 100) ∧
     frameDisplayName nameBuf [strCodes "AB", strCodes "CD"] 100 ≠ []) ∧
    guessName nameBuf [strCodes "AB", strCodes "CD"] 100 = some (strCodes "AB") ∧
    nameAcceptable nameBuf 100 (strCodes "CD") = true ∧
    findSubFrom nameBuf (strCodes "CD") 0 = some 99 ∧
    findSubFrom nameBuf (strCodes "AB") 0 = some 0 :=
  ⟨name_association_first_in_list nameBuf [strCodes "AB", strCodes "CD"] 100,
    by decide, by decide, by decide, by decide⟩

/-! Section: Form locator -/

/-- C4 (amended).  When the buffer begins with the primary signature and its
size field is truthy (non-zero) and in bounds, the primary branch defines the
root: header_offset 0, content 8 .. 8+size.  (For size = 0 the Python test
`if size:` is falsy and the locator falls through to the fallbacks; see the
counterexample.) -/
theorem form_primary_root (data : List Nat) (size : Nat)
    (h1 : py_startswith data FORMtag = true)
    (h2 : read_u32_le data 4 = some size)
    (h3 : size ≠ 0)
    (h4 : 8 + size ≤ data.length) :
    find_top_form data = (some 0, 8, 8 + size) := by
  unfold find_top_form
  simp only [if_pos h1, h2, if_pos (And.intro h3 h4)]

/-- Witness for the amended C4 at a concrete buffer with size field 1. -/
theorem form_primary_root_witness :
    (py_startswith (strCodes "FORM" ++ [1, 0, 0, 0] ++ [9]) FORMtag = true ∧
     read_u32_le (strCodes "FORM" ++ [1, 0, 0, 0] ++ [9]) 4 = some 1) ∧
    find_top_form (strCodes "FORM" ++ [1, 0, 0, 0] ++ [9]) = (some 0, 8, 8 + 1) :=
  ⟨⟨by decide, by decide⟩,
    form_primary_root (strCodes "FORM" ++ [1, 0, 0, 0] ++ [9]) 1
      (by decide) (by decide) (by decide) (by decide)⟩

/-- Counterexample to C4 as stated: a buffer beginning with the primary
signature and a valid size field of 0 (8 + 0 ≤ len) does not yield the root
(some 0, 8, 8); the zero size field is falsy in Python, so the locator falls
through to the whole-buffer fallback. -/
theorem form_primary_size_zero_counterexample :
    py_startswith (strCodes "FORM" ++ [0, 0, 0, 0]) FORMtag = true ∧
    read_u32_le (strCodes "FORM" ++ [0, 0, 0, 0]) 4 = some 0 ∧
    8 + 0 ≤ (strCodes "FORM" ++ [0, 0, 0, 0]).length ∧
    find_top_form (strCodes "FORM" ++ [0, 0, 0, 0]) = (none, 0, 8) ∧
    find_top_form (strCodes "FORM" ++ [0, 0, 0, 0]) ≠ (some 0, 8, 8 + 0) := by
  decide

/-- C3 (amended).  When the root is located via the anchor-based fallback, the
returned header_offset is `some fp`, the offset of the primary signature found
in the 64-byte backward window — not `None`. -/
theorem form_fallback_header_offset (data : List Nat) (gen fp size : Nat)
    (h0 : primaryLocates data = false)
    (h1 : findSubFrom data GEN8tag 0 = some gen)
    (h2 : findSubInRange data FORMtag (gen - 64) gen = some fp)
    (h3 : read_u32_le data (fp + 4) = some size)
    (h4 : size ≠ 0)
    (h5 : fp + 8 + size ≤ data.length) :
    find_top_form data = (some fp, fp + 8, fp + 8 + size) := by
  have hfb : formFallback data = (some fp, fp + 8, fp + 8 + size) := by
    unfold formFallback
    simp only [h1, h2, h3, if_pos (And.intro h4 h5)]
  unfold find_top_form
  unfold primaryLocates at h0
  cases hsw : py_startswith data FORMtag with
  | false => rw [if_neg (by simp)]; exact hfb
  | true =>
    rw [if_pos rfl]
    rw [hsw, Bool.true_and] at h0
    cases hr : read_u32_le data 4 with
    | none => exact hfb
    | some sz =>
      simp only [hr] at h0
      by_cases hcond : sz ≠ 0 ∧ 8 + sz ≤ data.length
      · exact absurd h0 (by simp [hcond.1, hcond.2])
      · show (if sz ≠ 0 ∧ 8 + sz ≤ data.length then ((some 0 : Option Nat), 8, 8 + sz)
            else formFallback data) = (some fp, fp + 8, fp + 8 + size)
        rw [if_neg hcond]
        exact hfb


/-- Witness for the amended C3 at a concrete buffer: the fallback finds the
anchor at 9 and the signature at 1, and header_offset is `some 1`. -/
theorem form_fallback_header_offset_witness :
    (primaryLocates anchorBuf = false ∧
     findSubFrom anchorBuf GEN8tag 0 = some 9 ∧
     findSubInRange anchorBuf FORMtag (9 - 64) 9 = some 1) ∧
    find_top_form anchorBuf = (some 1, 1 + 8, 1 + 8 + 4) :=
  ⟨⟨by decide, by decide, by decide⟩,
    form_fallback_header_offset anchorBuf 9 1 4
      (by decide) (by decide) (by decide) (by decide) (by decide) (by decide)⟩

/-- Counterexample to C3 as stated: on `anchorBuf` the root is located via the
anchor fallback (no leading signature; anchor found; signature with valid size
in the backward window), yet header_offset is `some 1`, not `None`. -/
theorem form_fallback_counterexample :
    py_startswith anchorBuf FORMtag = false ∧
    findSubFrom anchorBuf GEN8tag 0 = some 9 ∧
    findSubInRange anchorBuf FORMtag (9 - 64) 9 = some 1 ∧
    read_u32_le anchorBuf (1 + 4) = some 4 ∧
    1 + 8 + 4 ≤ anchorBuf.length ∧
    find_top_form anchorBuf = (some 1, 9, 13) ∧
    (find_top_form anchorBuf).1 ≠ none := by
  decide

/-! Section: Sprite grouping -/


/-- Counterexample to C1 as stated: the grouping key is the name part before
the first `"_frame"` substring, so `"spr_walk_0"` and `"spr_walk_1"` (which
contain no `"_frame"`) end up in two distinct singleton groups; no group named
`"spr_walk"` exists at all. -/
theorem sprite_grouping_counterexample :
    sprite_groups_of walkFrames =
      [(strCodes "spr_walk_0", [0]), (strCodes "spr_walk_1", [1])] ∧
    (∀ g ∈ sprite_groups_of walkFrames, g.1 ≠ strCodes "spr_walk") := by
  decide

/-- C1 (amended).  The two frames named `"spr_walk_0"` and `"spr_walk_1"` are
grouped under the two canonical names `"spr_walk_0"` and `"spr_walk_1"` (each
lowercased name truncated at its first `"_frame"` substring, which here leaves
the name whole); only names sharing a `"_frame"` stem, such as
`"spr_walk_frame0"` and `"spr_walk_frame1"`, share one group `"spr_walk"`.
The `"background_1"` frame is placed in no group and remains individually
reachable: it is listed, by its index 2, among the orphan frames of the tree
view. -/
theorem sprite_grouping_amended :
    sprite_groups_of walkFrames =
      [(strCodes "spr_walk_0", [0]), (strCodes "spr_walk_1", [1])] ∧
    (∀ g ∈ sprite_groups_of walkFrames, 2 ∉ g.2) ∧
    orphans_of walkFrames = [2] ∧
    walkFrames[2]? = some (Frame.mk (strCodes "background_1") 300 310) ∧
    sprite_groups_of
        [Frame.mk (strCodes "spr_walk_frame0") 100 110,
         Frame.mk (strCodes "spr_walk_frame1") 200 210] =
      [(strCodes "spr_walk", [0, 1])] := by
  decide

/-! Section: Atomicity of the indexing operation -/

/-- Counterexample to C2 as stated: in the Tk variant, a run whose chunk scan
raises (here modelled by `scanExc = some "RecursionError"`) ends in an error,
yet the caller-visible raw buffer has already been replaced (a partial index is
published: `raw` and `form_bounds` are new while `strings` is still the old
one), and no error description reaches the caller. -/
theorem atomicity_counterexample :
    (parse_file_thread_403_434
        (TkState.mk (some [1, 2, 3]) (some (none, 0, 3)) [] [strCodes "old"]
          [] [] [] [] [])
        (Except.ok [9, 9]) (some (strCodes "RecursionError"))).2 = none ∧
    (parse_file_thread_403_434
        (TkState.mk (some [1, 2, 3]) (some (none, 0, 3)) [] [strCodes "old"]
          [] [] [] [] [])
        (Except.ok [9, 9]) (some (strCodes "RecursionError"))).1.raw = some [9, 9] ∧
    (parse_file_thread_403_434
        (TkState.mk (some [1, 2, 3]) (some (none, 0, 3)) [] [strCodes "old"]
          [] [] [] [] [])
        (Except.ok [9, 9]) (some (strCodes "RecursionError"))).1.strings =
      [strCodes "old"] ∧
    (parse_file_thread_403_434
        (TkState.mk (some [1, 2, 3]) (some (none, 0, 3)) [] [strCodes "old"]
          [] [] [] [] [])
        (Except.ok [9, 9]) (some (strCodes "RecursionError"))).1 ≠
      TkState.mk (some [1, 2, 3]) (some (none, 0, 3)) [] [strCodes "old"]
        [] [] [] [] [] := by
  decide

/-- C2 (amended).  Atomicity holds in the Qt variant: whatever exception the
worker hits, the except-branch emits a fresh empty result with a non-empty
error description, and `on_parsed` then leaves every caller-visible category
exactly as it was.  In the Tk variant only the read phase is atomic: a read
failure shows an error and leaves every category untouched (but see the
counterexample for a scan failure there). -/
theorem atomicity_amended (st : ParseResult) (tn m : PyStr) (tk : TkState)
    (e : PyStr) (sx : Option PyStr) :
    on_parsed st (workerFailEmit tn m).1 (workerFailEmit tn m).2 = st ∧
    (workerFailEmit tn m).2 ≠ [] ∧
    (parse_file_thread_403_434 tk (Except.error e) sx).1 = tk ∧
    (parse_file_thread_403_434 tk (Except.error e) sx).2 ≠ none := by
  have hne : (workerFailEmit tn m).2 ≠ [] := by
    unfold workerFailEmit
    intro h
    have h2 := List.append_eq_nil.mp h
    have h3 := List.append_eq_nil.mp h2.1
    exact absurd h3.2 (by decide)
  refine ⟨?_, hne, rfl, by simp [parse_file_thread_403_434]⟩
  unfold on_parsed
  rw [if_neg hne]

end GMData
